import Mathlib

/-!
A verification development for the chessian chess engine
(source files: src/chessian/src/eval.rs, historyboard.rs, timecontrol.rs, chooser.rs).

Part 1 embeds the static evaluator `eval` of eval.rs over a board model that
keeps exactly the data `eval` reads: the two per-color occupancy bitboards and
the six per-piece-kind occupancy bitboards.  A bitboard (a u64 with one bit per
square) is modelled as a `Finset (Fin 64)`; the bitwise AND, OR and popcnt of
the source become intersection, union and cardinality, and the per-set-bit
loops of the `piece_values!` macro become sums over the corresponding sets
(iteration order is irrelevant because the loop body only adds into `result`).
Scores are `Int` (`i32` in the source; no value here approaches overflow).

Part 2 embeds the search (historyboard.rs, timecontrol.rs, chooser.rs) over an
abstract rules-library interface `Rules`, since the chess crate is an external
collaborator of the repository.  The wall clock (`Instant::elapsed`) is
modelled by an oracle `c : Nat -> Nat` giving the elapsed milliseconds at the
k-th read, with the read counter threaded through the search exactly where the
source reads the clock; the shared atomic stop flag is likewise a `Nat -> Bool`
oracle indexed by the poll counter.
-/

namespace Chessian

/-! ## Constants (eval.rs lines 3-19) -/

def PAWN_VALUE : Int := 100
def KNIGHT_VALUE : Int := 320
def BISHOP_VALUE : Int := 333
def ROOK_VALUE : Int := 500
def QUEEN_VALUE : Int := 900
def KING_VALUE : Int := 20000

def PIECE_VALUES (p : Fin 6) : Int :=
  [PAWN_VALUE, KNIGHT_VALUE, BISHOP_VALUE, ROOK_VALUE, QUEEN_VALUE, KING_VALUE].getD p.val 0

def DOUBLE_PAWN_SANCTION : Int := 45

/-! ## Piece-square tables (eval.rs, consts SQUARE_SCORES, ENDGAME_PAWN_SCORES,
ENDGAME_KING_SCORES), transcribed row by row; square index 0 is a1, index
rank*8+file in general, exactly as in the chess crate. -/

def sqWP : List Int :=
  [ 0, 0, 0, 0, 0, 0, 0, 0,
    5, 10, 10, -20, -20, 10, 10, 5,
    5, -5, -10, 0, 0, -10, -5, 5,
    0, 0, 0, 20, 20, 0, 0, 0,
    5, 5, 10, 25, 25, 10, 5, 5,
    10, 10, 20, 30, 30, 20, 10, 10,
    50, 50, 50, 50, 50, 50, 50, 50,
    0, 0, 0, 0, 0, 0, 0, 0 ]

def sqWN : List Int :=
  [ -50, -40, -30, -30, -30, -30, -40, -50,
    -40, -20, 0, 5, 5, 0, -20, -40,
    -30, 5, 10, 15, 15, 10, 5, -30,
    -30, 0, 15, 20, 20, 15, 0, -30,
    -30, 5, 15, 20, 20, 15, 5, -30,
    -30, 0, 10, 15, 15, 10, 0, -30,
    -40, -20, 0, 0, 0, 0, -20, -40,
    -50, -40, -30, -30, -30, -30, -40, -50 ]

def sqWB : List Int :=
  [ -20, -10, -10, -10, -10, -10, -10, -20,
    -10, 5, 0, 0, 0, 0, 5, -10,
    -10, 10, 10, 10, 10, 10, 10, -10,
    -10, 0, 10, 10, 10, 10, 0, -10,
    -10, 5, 5, 10, 10, 5, 5, -10,
    -10, 0, 5, 10, 10, 5, 0, -10,
    -10, 0, 0, 0, 0, 0, 0, -10,
    -20, -10, -10, -10, -10, -10, -10, -20 ]

def sqWR : List Int :=
  [ 0, 0, 0, 10, 10, 0, 0, 0,
    -10, 0, 0, 0, 0, 0, 0, -10,
    -10, 0, 0, 0, 0, 0, 0, -10,
    -10, 0, 0, 0, 0, 0, 0, -10,
    -10, 0, 0, 0, 0, 0, 0, -10,
    -10, 0, 0, 0, 0, 0, 0, -10,
    10, 20, 20, 20, 20, 20, 20, 10,
    0, 0, 0, 0, 0, 0, 0, 0 ]

def sqWQ : List Int :=
  [ -20, -10, -10, -5, -5, -10, -10, -20,
    -10, 0, 5, 0, 0, 0, 0, -10,
    -10, 5, 5, 5, 5, 5, 0, -10,
    0, 0, 5, 5, 5, 5, 0, -5,
    -5, 0, 5, 5, 5, 5, 0, -5,
    -10, 0, 5, 5, 5, 5, 0, -10,
    -10, 0, 0, 0, 0, 0, 0, -10,
    -20, -10, -10, -5, -5, -10, -10, -20 ]

def sqWK : List Int :=
  [ 10, 20, 10, 0, 0, 10, 20, 10,
    10, 10, 0, 0, 0, 0, 10, 10,
    -10, -20, -20, -20, -20, -20, -20, -10,
    -20, -30, -30, -40, -40, -30, -30, -20,
    -30, -40, -40, -50, -50, -40, -40, -30,
    -30, -40, -40, -50, -50, -40, -40, -30,
    -30, -40, -40, -50, -50, -40, -40, -30,
    -30, -40, -40, -50, -50, -40, -40, -30 ]

def sqBP : List Int :=
  [ 0, 0, 0, 0, 0, 0, 0, 0,
    50, 50, 50, 50, 50, 50, 50, 50,
    10, 10, 20, 30, 30, 20, 10, 10,
    5, 5, 10, 25, 25, 10, 5, 5,
    0, 0, 0, 20, 20, 0, 0, 0,
    5, -5, -10, 0, 0, -10, -5, 5,
    5, 10, 10, -20, -20, 10, 10, 5,
    0, 0, 0, 0, 0, 0, 0, 0 ]

def sqBN : List Int :=
  [ -50, -40, -30, -30, -30, -30, -40, -50,
    -40, -20, 0, 5, 5, 0, -20, -40,
    -30, 5, 10, 15, 15, 10, 5, -30,
    -30, 0, 15, 20, 20, 15, 0, -30,
    -30, 5, 15, 20, 20, 15, 5, -30,
    -30, 0, 10, 15, 15, 10, 0, -30,
    -40, -20, 0, 0, 0, 0, -20, -40,
    -50, -40, -30, -30, -30, -30, -40, -50 ]

def sqBB : List Int :=
  [ -20, -10, -10, -10, -10, -10, -10, -20,
    -10, 0, 0, 0, 0, 0, 0, -10,
    -10, 0, 5, 10, 10, 5, 0, -10,
    -10, 5, 5, 10, 10, 5, 5, -10,
    -10, 0, 10, 10, 10, 10, 0, -10,
    -10, 10, 10, 10, 10, 10, 10, -10,
    -10, 5, 0, 0, 0, 0, 5, -10,
    -20, -10, -10, -10, -10, -10, -10, -20 ]

def sqBR : List Int :=
  [ 0, 0, 0, 0, 0, 0, 0, 0,
    5, 10, 10, 10, 10, 10, 10, 5,
    -5, 0, 0, 0, 0, 0, 0, -5,
    -5, 0, 0, 0, 0, 0, 0, -5,
    -5, 0, 0, 0, 0, 0, 0, -5,
    -5, 0, 0, 0, 0, 0, 0, -5,
    -5, 0, 0, 0, 0, 0, 0, -5,
    0, 0, 0, 5, 5, 0, 0, 0 ]

def sqBQ : List Int :=
  [ -20, -10, -10, -5, -5, -10, -10, -20,
    -10, 0, 5, 0, 0, 0, 0, -10,
    -10, 5, 5, 5, 5, 5, 0, -10,
    0, 0, 5, 5, 5, 5, 0, -5,
    -5, 0, 5, 5, 5, 5, 0, -5,
    -10, 0, 5, 5, 5, 5, 0, -10,
    -10, 0, 0, 0, 0, 0, 0, -10,
    -20, -10, -10, -5, -5, -10, -10, -20 ]

def sqBK : List Int :=
  [ -30, -40, -40, -50, -50, -40, -40, -30,
    -30, -40, -40, -50, -50, -40, -40, -30,
    -30, -40, -40, -50, -50, -40, -40, -30,
    -30, -40, -40, -50, -50, -40, -40, -30,
    -20, -30, -30, -40, -40, -30, -30, -20,
    -10, -20, -20, -20, -20, -20, -20, -10,
    10, 10, 0, 0, 0, 0, 10, 10,
    10, 20, 10, 0, 0, 10, 20, 10 ]

def egpW : List Int :=
  [ 0, 0, 0, 0, 0, 0, 0, 0,
    0, 0, 0, 0, 0, 0, 0, 0,
    15, 15, 15, 15, 15, 15, 15, 15,
    20, 20, 20, 20, 20, 20, 20, 20,
    25, 25, 25, 25, 25, 25, 25, 25,
    30, 30, 30, 30, 30, 30, 30, 30,
    35, 35, 35, 35, 35, 35, 35, 35,
    40, 40, 40, 40, 40, 40, 40, 40 ]

def egpB : List Int :=
  [ 40, 40, 40, 40, 40, 40, 40, 40,
    35, 35, 35, 35, 35, 35, 35, 35,
    30, 30, 30, 30, 30, 30, 30, 30,
    25, 25, 25, 25, 25, 25, 25, 25,
    20, 20, 20, 20, 20, 20, 20, 20,
    15, 15, 15, 15, 15, 15, 15, 15,
    0, 0, 0, 0, 0, 0, 0, 0,
    0, 0, 0, 0, 0, 0, 0, 0 ]

def egkW : List Int :=
  [ -50, -40, -30, -20, -20, -30, -40, -50,
    -30, -20, -10, 0, 0, -10, -20, -30,
    -30, -10, 20, 30, 30, 20, -10, -30,
    -30, -10, 30, 40, 40, 30, -10, -30,
    -30, -10, 30, 40, 40, 30, -10, -30,
    -30, -10, 20, 30, 30, 20, -10, -30,
    -30, -30, 0, 0, 0, 0, -30, -30,
    -50, -30, -30, -30, -30, -30, -30, -50 ]

def egkB : List Int :=
  [ -50, -30, -30, -30, -30, -30, -30, -50,
    -30, -30, 0, 0, 0, 0, -30, -30,
    -30, -10, 20, 30, 30, 20, -10, -30,
    -30, -10, 30, 40, 40, 30, -10, -30,
    -30, -10, 30, 40, 40, 30, -10, -30,
    -30, -10, 20, 30, 30, 20, -10, -30,
    -30, -20, -10, 0, 0, -10, -20, -30,
    -50, -40, -30, -20, -20, -30, -40, -50 ]

def sqData (c p : Nat) : List Int :=
  match c, p with
  | 0, 0 => sqWP
  | 0, 1 => sqWN
  | 0, 2 => sqWB
  | 0, 3 => sqWR
  | 0, 4 => sqWQ
  | 0, 5 => sqWK
  | 1, 0 => sqBP
  | 1, 1 => sqBN
  | 1, 2 => sqBB
  | 1, 3 => sqBR
  | 1, 4 => sqBQ
  | 1, 5 => sqBK
  | _, _ => []

def SQUARE_SCORES (c : Fin 2) (p : Fin 6) (i : Fin 64) : Int :=
  (sqData c.val p.val).getD i.val 0

def ENDGAME_PAWN_SCORES (c : Fin 2) (i : Fin 64) : Int :=
  (if c.val = 0 then egpW else egpB).getD i.val 0

def ENDGAME_KING_SCORES (c : Fin 2) (i : Fin 64) : Int :=
  (if c.val = 0 then egkW else egkB).getD i.val 0

/-! ## The board data read by eval (chess crate accessors used in eval.rs
lines 28-37): color_combined for each color, pieces for each piece kind.
Piece kinds are indexed 0=pawn, 1=knight, 2=bishop, 3=rook, 4=queen, 5=king. -/

structure EBoard where
  white : Finset (Fin 64)
  black : Finset (Fin 64)
  pieces : Fin 6 → Finset (Fin 64)

/-- combined() of the chess crate: union of the two color occupancies. -/
def EBoard.combined (b : EBoard) : Finset (Fin 64) := b.white ∪ b.black

/-- get_file(file) of the chess crate: the eight squares of one file. -/
def fileMask (f : Fin 8) : Finset (Fin 64) :=
  Finset.univ.filter (fun i => i.val % 8 = f.val)

/-- Endgame phase test of eval.rs line 28: popcnt of the combined occupancy
is strictly below 20. -/
def isEndgame (b : EBoard) : Bool := b.combined.card < 20

/-- The evaluator of eval.rs lines 26-90 (function eval).  Each summand is one
expansion of the piece_values! macro, in source order; the final subtraction is
the per-file doubled-pawn loop of lines 81-89. -/
def eval (b : EBoard) : Int :=
  (if isEndgame b then
    ∑ i ∈ b.white ∩ b.pieces 0, (SQUARE_SCORES 0 0 i + PIECE_VALUES 0 + ENDGAME_PAWN_SCORES 0 i)
  else
    ∑ i ∈ b.white ∩ b.pieces 0, (SQUARE_SCORES 0 0 i + PIECE_VALUES 0))
  + (∑ i ∈ b.white ∩ b.pieces 1, (SQUARE_SCORES 0 1 i + PIECE_VALUES 1))
  + (∑ i ∈ b.white ∩ b.pieces 2, (SQUARE_SCORES 0 2 i + PIECE_VALUES 2))
  + (∑ i ∈ b.white ∩ b.pieces 3, (SQUARE_SCORES 0 3 i + PIECE_VALUES 3))
  + (∑ i ∈ b.white ∩ b.pieces 4, (SQUARE_SCORES 0 4 i + PIECE_VALUES 4))
  + (if isEndgame b then
      ∑ i ∈ b.white ∩ b.pieces 5, ENDGAME_KING_SCORES 0 i
    else
      ∑ i ∈ b.white ∩ b.pieces 5, (SQUARE_SCORES 0 5 i + PIECE_VALUES 5))
  - (if isEndgame b then
      ∑ i ∈ b.black ∩ b.pieces 0, (SQUARE_SCORES 1 0 i + PIECE_VALUES 0 + ENDGAME_PAWN_SCORES 1 i)
    else
      ∑ i ∈ b.black ∩ b.pieces 0, (SQUARE_SCORES 1 0 i + PIECE_VALUES 0))
  - (∑ i ∈ b.black ∩ b.pieces 1, (SQUARE_SCORES 1 1 i + PIECE_VALUES 1))
  - (∑ i ∈ b.black ∩ b.pieces 2, (SQUARE_SCORES 1 2 i + PIECE_VALUES 2))
  - (∑ i ∈ b.black ∩ b.pieces 3, (SQUARE_SCORES 1 3 i + PIECE_VALUES 3))
  - (∑ i ∈ b.black ∩ b.pieces 4, (SQUARE_SCORES 1 4 i + PIECE_VALUES 4))
  - (if isEndgame b then
      ∑ i ∈ b.black ∩ b.pieces 5, ENDGAME_KING_SCORES 1 i
    else
      ∑ i ∈ b.black ∩ b.pieces 5, (SQUARE_SCORES 1 5 i + PIECE_VALUES 5))
  - ∑ f : Fin 8, (((b.white ∩ b.pieces 0 ∩ fileMask f).card : Int)
      - ((b.black ∩ b.pieces 0 ∩ fileMask f).card : Int)) * DOUBLE_PAWN_SANCTION


/-! ## Vertical mirroring (for the evaluator-symmetry property).
mirrorSq flips the rank of a square and keeps its file. -/

def mirrorSq (i : Fin 64) : Fin 64 := ⟨(7 - i.val / 8) * 8 + i.val % 8, by omega⟩

lemma mirrorSq_mirrorSq : ∀ i, mirrorSq (mirrorSq i) = i := by decide

lemma mirrorSq_involutive : Function.Involutive mirrorSq := mirrorSq_mirrorSq

lemma mirrorSq_injective : Function.Injective mirrorSq := mirrorSq_involutive.injective

/-- Mirror image of a bitboard. -/
def mirrorBB (s : Finset (Fin 64)) : Finset (Fin 64) := s.image mirrorSq

/-- The color-swapped, vertically mirrored position. -/
def mirrorBoard (b : EBoard) : EBoard :=
  { white := mirrorBB b.black, black := mirrorBB b.white,
    pieces := fun p => mirrorBB (b.pieces p) }

lemma mirrorBB_inter (s t : Finset (Fin 64)) :
    mirrorBB s ∩ mirrorBB t = mirrorBB (s ∩ t) :=
  (Finset.image_inter s t mirrorSq_injective).symm

lemma mirrorBB_union (s t : Finset (Fin 64)) :
    mirrorBB s ∪ mirrorBB t = mirrorBB (s ∪ t) :=
  (Finset.image_union s t).symm

lemma mirrorBB_card (s : Finset (Fin 64)) : (mirrorBB s).card = s.card :=
  Finset.card_image_of_injective s mirrorSq_injective

lemma mirrorBB_empty : mirrorBB (∅ : Finset (Fin 64)) = ∅ := rfl

lemma sum_mirrorBB (s : Finset (Fin 64)) (g : Fin 64 → Int) :
    ∑ i ∈ mirrorBB s, g i = ∑ i ∈ s, g (mirrorSq i) :=
  Finset.sum_image (fun _ _ _ _ h => mirrorSq_injective h)

lemma mirror_term (s : Finset (Fin 64)) (g0 g1 : Fin 64 → Int)
    (hg : ∀ i, g1 i = g0 (mirrorSq i)) :
    ∑ i ∈ mirrorBB s, g0 i = ∑ i ∈ s, g1 i := by
  rw [sum_mirrorBB]
  exact Finset.sum_congr rfl fun i _ => (hg i).symm

lemma mirrorBB_fileMask : ∀ f : Fin 8, mirrorBB (fileMask f) = fileMask f := by
  decide

lemma mirrorBB_inter_fileMask (s : Finset (Fin 64)) (f : Fin 8) :
    mirrorBB s ∩ fileMask f = mirrorBB (s ∩ fileMask f) := by
  rw [← mirrorBB_fileMask f, mirrorBB_inter, mirrorBB_fileMask]

lemma isEndgame_mirror (b : EBoard) : isEndgame (mirrorBoard b) = isEndgame b := by
  simp only [isEndgame, EBoard.combined, mirrorBoard, mirrorBB_union, mirrorBB_card]
  rw [Finset.union_comm]

/-- Restricted evaluator symmetry: on positions with no knights, rooks or
queens (the three piece kinds whose Black tables are not the vertical mirror
of the White tables), eval negates under color swap plus vertical mirror. -/
lemma eval_mirror (b : EBoard) (h1 : b.pieces 1 = ∅) (h3 : b.pieces 3 = ∅)
    (h4 : b.pieces 4 = ∅) : eval b = - eval (mirrorBoard b) := by
  have hm1 : (mirrorBoard b).pieces 1 = ∅ := by simp [mirrorBoard, h1, mirrorBB_empty]
  have hm3 : (mirrorBoard b).pieces 3 = ∅ := by simp [mirrorBoard, h3, mirrorBB_empty]
  have hm4 : (mirrorBoard b).pieces 4 = ∅ := by simp [mirrorBoard, h4, mirrorBB_empty]
  unfold eval
  rw [isEndgame_mirror, h1, h3, h4, hm1, hm3, hm4]
  simp only [Finset.inter_empty, Finset.sum_empty]
  have hw : (mirrorBoard b).white = mirrorBB b.black := rfl
  have hb : (mirrorBoard b).black = mirrorBB b.white := rfl
  have hp : ∀ p, (mirrorBoard b).pieces p = mirrorBB (b.pieces p) := fun _ => rfl
  rw [hw, hb, hp 0, hp 2, hp 5]
  rw [mirrorBB_inter, mirrorBB_inter, mirrorBB_inter, mirrorBB_inter,
    mirrorBB_inter, mirrorBB_inter]
  rw [mirror_term (b.black ∩ b.pieces 0) _
      (fun i => SQUARE_SCORES 1 0 i + PIECE_VALUES 0 + ENDGAME_PAWN_SCORES 1 i) (by decide)]
  rw [mirror_term (b.black ∩ b.pieces 0) _
      (fun i => SQUARE_SCORES 1 0 i + PIECE_VALUES 0) (by decide)]
  rw [mirror_term (b.black ∩ b.pieces 2) _
      (fun i => SQUARE_SCORES 1 2 i + PIECE_VALUES 2) (by decide)]
  rw [mirror_term (b.black ∩ b.pieces 5) _ (fun i => ENDGAME_KING_SCORES 1 i) (by decide)]
  rw [mirror_term (b.black ∩ b.pieces 5) _
      (fun i => SQUARE_SCORES 1 5 i + PIECE_VALUES 5) (by decide)]
  rw [mirror_term (b.white ∩ b.pieces 0) _
      (fun i => SQUARE_SCORES 0 0 i + PIECE_VALUES 0 + ENDGAME_PAWN_SCORES 0 i) (by decide)]
  rw [mirror_term (b.white ∩ b.pieces 0) _
      (fun i => SQUARE_SCORES 0 0 i + PIECE_VALUES 0) (by decide)]
  rw [mirror_term (b.white ∩ b.pieces 2) _
      (fun i => SQUARE_SCORES 0 2 i + PIECE_VALUES 2) (by decide)]
  rw [mirror_term (b.white ∩ b.pieces 5) _ (fun i => ENDGAME_KING_SCORES 0 i) (by decide)]
  rw [mirror_term (b.white ∩ b.pieces 5) _
      (fun i => SQUARE_SCORES 0 5 i + PIECE_VALUES 5) (by decide)]
  have hdsum : ∑ f : Fin 8, (((mirrorBB (b.black ∩ b.pieces 0) ∩ fileMask f).card : Int)
        - ((mirrorBB (b.white ∩ b.pieces 0) ∩ fileMask f).card : Int)) * DOUBLE_PAWN_SANCTION
      = ∑ f : Fin 8, (((b.black ∩ b.pieces 0 ∩ fileMask f).card : Int)
        - ((b.white ∩ b.pieces 0 ∩ fileMask f).card : Int)) * DOUBLE_PAWN_SANCTION := by
    apply Finset.sum_congr rfl
    intro f _
    rw [mirrorBB_inter_fileMask, mirrorBB_inter_fileMask, mirrorBB_card, mirrorBB_card]
  rw [hdsum]
  have hneg : ∑ f : Fin 8, (((b.black ∩ b.pieces 0 ∩ fileMask f).card : Int)
        - ((b.white ∩ b.pieces 0 ∩ fileMask f).card : Int)) * DOUBLE_PAWN_SANCTION
      = - ∑ f : Fin 8, (((b.white ∩ b.pieces 0 ∩ fileMask f).card : Int)
        - ((b.black ∩ b.pieces 0 ∩ fileMask f).card : Int)) * DOUBLE_PAWN_SANCTION := by
    rw [← Finset.sum_neg_distrib]
    apply Finset.sum_congr rfl
    intro f _
    ring
  rw [hneg]
  cases heg : isEndgame b <;> simp only [heg, Bool.false_eq_true, if_true, if_false,
    ite_true, ite_false, eq_self_iff_true] <;> ring


/-! ## Claim C5: phase test and per-piece scoring of eval -/

/-- Per-square score as described by the specification: in endgame a pawn gets
its midgame square score plus its piece value plus the endgame pawn overlay,
a king gets only the endgame king score; otherwise every piece gets its
midgame square score plus its piece value. -/
def pieceScoreC5 (eg : Bool) (c : Fin 2) (p : Fin 6) (i : Fin 64) : Int :=
  if p = 0 ∧ eg = true then SQUARE_SCORES c 0 i + PIECE_VALUES 0 + ENDGAME_PAWN_SCORES c i
  else if p = 5 ∧ eg = true then ENDGAME_KING_SCORES c i
  else SQUARE_SCORES c p i + PIECE_VALUES p

/-- C5: eval classifies a position as endgame exactly when the popcount of the
combined occupancy is below 20, and equals the sum over the six piece kinds of
the claimed per-square scores, white added and black subtracted, together with
the doubled-pawn file term. -/
theorem C5_eval_phase_and_scoring (b : EBoard) :
    (isEndgame b = true ↔ b.combined.card < 20) ∧
    eval b = (∑ p : Fin 6, ∑ i ∈ b.white ∩ b.pieces p, pieceScoreC5 (isEndgame b) 0 p i)
      - (∑ p : Fin 6, ∑ i ∈ b.black ∩ b.pieces p, pieceScoreC5 (isEndgame b) 1 p i)
      - ∑ f : Fin 8, (((b.white ∩ b.pieces 0 ∩ fileMask f).card : Int)
          - ((b.black ∩ b.pieces 0 ∩ fileMask f).card : Int)) * DOUBLE_PAWN_SANCTION := by
  constructor
  · simp [isEndgame]
  · unfold eval
    rw [Fin.sum_univ_six, Fin.sum_univ_six]
    cases heg : isEndgame b <;> simp [pieceScoreC5, heg] <;> ring

/-! ## Claim C6: the doubled-pawn file term -/

/-- Number of white pawns on a file. -/
def whitePawnsOnFile (b : EBoard) (f : Fin 8) : Nat :=
  ((b.white ∩ b.pieces 0).filter (fun i => i.val % 8 = f.val)).card

/-- Number of black pawns on a file. -/
def blackPawnsOnFile (b : EBoard) (f : Fin 8) : Nat :=
  ((b.black ∩ b.pieces 0).filter (fun i => i.val % 8 = f.val)).card

/-- The part of eval before the doubled-pawn loop: the twelve per-piece sums. -/
def evalPieces (b : EBoard) : Int :=
  (if isEndgame b then
    ∑ i ∈ b.white ∩ b.pieces 0, (SQUARE_SCORES 0 0 i + PIECE_VALUES 0 + ENDGAME_PAWN_SCORES 0 i)
  else
    ∑ i ∈ b.white ∩ b.pieces 0, (SQUARE_SCORES 0 0 i + PIECE_VALUES 0))
  + (∑ i ∈ b.white ∩ b.pieces 1, (SQUARE_SCORES 0 1 i + PIECE_VALUES 1))
  + (∑ i ∈ b.white ∩ b.pieces 2, (SQUARE_SCORES 0 2 i + PIECE_VALUES 2))
  + (∑ i ∈ b.white ∩ b.pieces 3, (SQUARE_SCORES 0 3 i + PIECE_VALUES 3))
  + (∑ i ∈ b.white ∩ b.pieces 4, (SQUARE_SCORES 0 4 i + PIECE_VALUES 4))
  + (if isEndgame b then
      ∑ i ∈ b.white ∩ b.pieces 5, ENDGAME_KING_SCORES 0 i
    else
      ∑ i ∈ b.white ∩ b.pieces 5, (SQUARE_SCORES 0 5 i + PIECE_VALUES 5))
  - (if isEndgame b then
      ∑ i ∈ b.black ∩ b.pieces 0, (SQUARE_SCORES 1 0 i + PIECE_VALUES 0 + ENDGAME_PAWN_SCORES 1 i)
    else
      ∑ i ∈ b.black ∩ b.pieces 0, (SQUARE_SCORES 1 0 i + PIECE_VALUES 0))
  - (∑ i ∈ b.black ∩ b.pieces 1, (SQUARE_SCORES 1 1 i + PIECE_VALUES 1))
  - (∑ i ∈ b.black ∩ b.pieces 2, (SQUARE_SCORES 1 2 i + PIECE_VALUES 2))
  - (∑ i ∈ b.black ∩ b.pieces 3, (SQUARE_SCORES 1 3 i + PIECE_VALUES 3))
  - (∑ i ∈ b.black ∩ b.pieces 4, (SQUARE_SCORES 1 4 i + PIECE_VALUES 4))
  - (if isEndgame b then
      ∑ i ∈ b.black ∩ b.pieces 5, ENDGAME_KING_SCORES 1 i
    else
      ∑ i ∈ b.black ∩ b.pieces 5, (SQUARE_SCORES 1 5 i + PIECE_VALUES 5))

lemma pawnsOnFile_eq (s : Finset (Fin 64)) (f : Fin 8) :
    s ∩ fileMask f = s.filter (fun i => i.val % 8 = f.val) := by
  ext i
  simp [fileMask, Finset.mem_filter, Finset.mem_inter]

/-- C6: the doubled-pawn term of eval subtracts, over the 8 files,
DOUBLE_PAWN_SANCTION times the difference between the number of white and of
black pawns on the file; each extra pawn a side has on a file beyond the
opponent count on that file thus costs that side exactly 45 centipawns. -/
theorem C6_doubled_pawn_term (b : EBoard) :
    eval b = evalPieces b
      - DOUBLE_PAWN_SANCTION
        * ∑ f : Fin 8, ((whitePawnsOnFile b f : Int) - (blackPawnsOnFile b f : Int)) := by
  unfold eval evalPieces whitePawnsOnFile blackPawnsOnFile
  rw [Finset.mul_sum]
  have hfile : ∀ f : Fin 8,
      (((b.white ∩ b.pieces 0 ∩ fileMask f).card : Int)
        - ((b.black ∩ b.pieces 0 ∩ fileMask f).card : Int)) * DOUBLE_PAWN_SANCTION
      = DOUBLE_PAWN_SANCTION
        * ((((b.white ∩ b.pieces 0).filter (fun i => i.val % 8 = f.val)).card : Int)
          - (((b.black ∩ b.pieces 0).filter (fun i => i.val % 8 = f.val)).card : Int)) := by
    intro f
    rw [pawnsOnFile_eq, pawnsOnFile_eq]
    ring
  rw [Finset.sum_congr rfl (fun f _ => hfile f)]

/-! ## Claim C7: evaluator symmetry under color swap and vertical mirror -/

/-- A position with a lone black knight on d2 (square 11) besides the two
kings: the knight tables are not mirrored, so eval is not antisymmetric. -/
def knightAsymBoard : EBoard :=
  { white := {4}, black := {60, 11},
    pieces := fun p => if p = 5 then {4, 60} else if p = 1 then {11} else ∅ }

/-- C7 counterexample: eval is not antisymmetric under color swap plus
vertical mirror (lone black knight on square 11 against the mirrored lone
white knight on square 51), and the black knight table is not the vertical
mirror of the white knight table at square 11. -/
theorem C7_counterexample :
    eval knightAsymBoard ≠ - eval (mirrorBoard knightAsymBoard) ∧
    SQUARE_SCORES 1 1 11 ≠ SQUARE_SCORES 0 1 (mirrorSq 11) := by
  constructor <;> decide

/-- C7 amended: the mirror identity between the Black and White tables holds
for the pawn, bishop and king midgame tables and for the endgame pawn and king
tables, but fails for the knight, rook and queen tables; accordingly
eval(P) = -eval(P mirrored and color swapped) holds on every position that has
no knights, rooks or queens, but not in general. -/
theorem C7_amended :
    (∀ i, SQUARE_SCORES 1 0 i = SQUARE_SCORES 0 0 (mirrorSq i)) ∧
    (∀ i, SQUARE_SCORES 1 2 i = SQUARE_SCORES 0 2 (mirrorSq i)) ∧
    (∀ i, SQUARE_SCORES 1 5 i = SQUARE_SCORES 0 5 (mirrorSq i)) ∧
    (∀ i, ENDGAME_PAWN_SCORES 1 i = ENDGAME_PAWN_SCORES 0 (mirrorSq i)) ∧
    (∀ i, ENDGAME_KING_SCORES 1 i = ENDGAME_KING_SCORES 0 (mirrorSq i)) ∧
    (∃ i, SQUARE_SCORES 1 1 i ≠ SQUARE_SCORES 0 1 (mirrorSq i)) ∧
    (∃ i, SQUARE_SCORES 1 3 i ≠ SQUARE_SCORES 0 3 (mirrorSq i)) ∧
    (∃ i, SQUARE_SCORES 1 4 i ≠ SQUARE_SCORES 0 4 (mirrorSq i)) ∧
    ∀ b : EBoard, b.pieces 1 = ∅ → b.pieces 3 = ∅ → b.pieces 4 = ∅ →
      eval b = - eval (mirrorBoard b) :=
  ⟨by decide, by decide, by decide, by decide, by decide, by decide, by decide, by decide,
    eval_mirror⟩

/-- A pawn-and-king position used to instantiate the amended C7 statement. -/
def pawnKingBoard : EBoard :=
  { white := {4, 12}, black := {60, 50},
    pieces := fun p => if p = 5 then {4, 60} else if p = 0 then {12, 50} else ∅ }

/-- Witness for the amended C7: the symmetry statement applied to a concrete
knight-, rook- and queen-free position. -/
theorem C7_amended_witness :
    eval pawnKingBoard = - eval (mirrorBoard pawnKingBoard) :=
  C7_amended.2.2.2.2.2.2.2.2 pawnKingBoard (by decide) (by decide) (by decide)


/-! ## Part 2: the search (historyboard.rs, timecontrol.rs, chooser.rs).

The chess rules library (the chess crate) is an external collaborator; the
search is embedded over an abstract interface `Rules` providing exactly the
operations chooser.rs consumes, together with the one rules-library fact the
embedding needs: applying a legal move whose destination square is occupied
strictly decreases the total piece count. -/

/-- Side to move (chess::Color). -/
inductive Color where
  | white
  | black
deriving DecidableEq, Repr

/-- chess::BoardStatus. -/
inductive BoardStatus where
  | Ongoing
  | Checkmate
  | Stalemate
deriving DecidableEq, Repr

/-- chooser.rs line 10. -/
def MATE_SCORE : Int := 30000

/-- chooser.rs line 11. -/
def INF : Int := MATE_SCORE * 2

/-- The rules-library interface consumed by the search, with squares given by
their index 0..63 and piece kinds by their index 0..5 as in Part 1.
`captureShrinks` is the rules-library guarantee that a capture removes a
piece from the board. -/
structure Rules (B M : Type) where
  legalMoves : B → List M
  makeMove : B → M → B
  statusOf : B → BoardStatus
  getHash : B → Nat
  sideToMove : B → Color
  evalFn : B → Int
  pieceOn : B → Fin 64 → Option (Fin 6)
  pieceCount : B → Nat
  moveSrc : M → Fin 64
  moveDest : M → Fin 64
  captureShrinks : ∀ b m, m ∈ legalMoves b → (pieceOn b (moveDest m)).isSome = true →
    pieceCount (makeMove b m) < pieceCount b

/-! ## timecontrol.rs -/

/-- timecontrol.rs TCMode. -/
inductive TCMode where
  | MoveTime (millis : Nat)
  | Depth (d : Nat)
  | Infinite
deriving DecidableEq, Repr

/-- timecontrol.rs TimeControl.  The shared atomic stop flag is modelled as a
poll-indexed oracle: `f k` is the value the k-th read of the flag observes
(`none` models a TimeControl built without a flag). -/
structure TimeControl where
  stopFlag : Option (Nat → Bool)
  mode : TCMode

/-- timecontrol.rs should_stop, with `k` the index of this poll (the source
reads the atomic flag at poll time). -/
def TimeControl.shouldStop (tc : TimeControl) (k : Nat) (elapsed : Nat)
    (reachedDepth : Nat) : Bool :=
  (match tc.stopFlag with
   | some f => f k
   | none => false)
  || (match tc.mode with
      | .MoveTime millis => millis ≤ elapsed
      | .Depth d => d ≤ reachedDepth
      | .Infinite => false)

/-! ## historyboard.rs -/

/-- historyboard.rs HistoryBoard: a position and a hash -> repetition-count
map.  The HashMap is modelled as a total function that is 0 outside its
support (the source reads it with get(...).copied().unwrap_or_default()). -/
structure HB (B : Type) where
  board : B
  history : Nat → Nat

/-- HistoryBoard::new (historyboard.rs lines 12-16). -/
def newHB {B M : Type} (R : Rules B M) (b : B) : HB B :=
  { board := b, history := fun x => if x = R.getHash b then 1 else 0 }

/-- HistoryBoard::make_move (historyboard.rs lines 18-26): the successor board
with the successor hash count incremented (the u8 count is modelled as Nat;
no claim concerns its overflow). -/
def makeMoveHB {B M : Type} (R : Rules B M) (h : HB B) (m : M) : HB B :=
  let nb := R.makeMove h.board m
  { board := nb,
    history := fun x => if x = R.getHash nb then h.history x + 1 else h.history x }

/-- HistoryBoard::status (historyboard.rs lines 28-40): Stalemate when the
current position repetition count is at least 3, otherwise the underlying
rules-library status. -/
def statusHB {B M : Type} (R : Rules B M) (h : HB B) : BoardStatus :=
  if 3 ≤ h.history (R.getHash h.board) then .Stalemate else R.statusOf h.board

/-! ## Move helpers of chooser.rs (lines 219-247) -/

/-- get_piece (chooser.rs lines 223-225).  The source unwraps; the rules
library guarantees a legal move starts on an occupied square, so the default
is never observed for legal moves. -/
def getPiece {B M : Type} (R : Rules B M) (b : B) (m : M) : Fin 6 :=
  (R.pieceOn b (R.moveSrc m)).getD 0

/-- get_capture (chooser.rs lines 227-229). -/
def getCapture {B M : Type} (R : Rules B M) (b : B) (m : M) : Option (Fin 6) :=
  R.pieceOn b (R.moveDest m)

/-- get_capture_value (chooser.rs lines 231-235). -/
def getCaptureValue {B M : Type} (R : Rules B M) (b : B) (m : M) : Int :=
  match getCapture R b m with
  | some p => PIECE_VALUES p
  | none => 0

/-- get_relative_capture_value (chooser.rs lines 237-239). -/
def getRelativeCaptureValue {B M : Type} (R : Rules B M) (b : B) (m : M) : Int :=
  getCaptureValue R b m - PIECE_VALUES (getPiece R b m)

/-- is_quiet (chooser.rs lines 219-221). -/
def isQuiet {B M : Type} (R : Rules B M) (m : M) (b : B) : Bool :=
  getRelativeCaptureValue R b m < 0

/-- get_move_prio (chooser.rs lines 241-245). -/
def getMovePrio {B M : Type} (R : Rules B M) (m : M) (before : B) : Int :=
  SQUARE_SCORES (if R.sideToMove before = .white then 0 else 1) (getPiece R before m)
      (R.moveDest m)
    + getCaptureValue R before m

/-- Stable insertion of an element into a list already sorted by `le`,
placing it after existing elements it does not strictly precede. -/
def insertSorted {α : Type} (le : α → α → Bool) (a : α) : List α → List α
  | [] => [a]
  | b :: bs => if le b a then b :: insertSorted le a bs else a :: b :: bs

/-- A stable ascending sort (insertion sort).  Rust's slice sort is also
stable, and a stable sort is determined by the key function, so this is the
function computed by sort_by_key. -/
def stableSort {α : Type} (le : α → α → Bool) (l : List α) : List α :=
  l.foldl (fun acc a => insertSorted le a acc) []

/-- sort_moves (chooser.rs lines 247-249): stable sort ascending by the
negated priority, i.e. by descending priority. -/
def sortMoves {B M : Type} (R : Rules B M) (ms : List M) (context : B) : List M :=
  stableSort (fun a b => -(getMovePrio R a context) ≤ -(getMovePrio R b context)) ms

lemma mem_insertSorted {α : Type} (le : α → α → Bool) (a x : α) (l : List α) :
    x ∈ insertSorted le a l ↔ x = a ∨ x ∈ l := by
  induction l with
  | nil => simp [insertSorted]
  | cons b bs ih =>
    simp only [insertSorted]
    by_cases h : le b a = true <;> simp [h, ih, List.mem_cons] <;> try tauto

lemma mem_stableSort {α : Type} (le : α → α → Bool) (l : List α) (x : α) :
    x ∈ stableSort le l ↔ x ∈ l := by
  have key : ∀ (l acc : List α), x ∈ l.foldl (fun acc a => insertSorted le a acc) acc
      ↔ x ∈ acc ∨ x ∈ l := by
    intro l
    induction l with
    | nil => simp
    | cons a as ih =>
      intro acc
      simp only [List.foldl_cons, ih, mem_insertSorted]
      simp [List.mem_cons]
      try tauto
  simpa using key l []

lemma mem_sortMoves {B M : Type} (R : Rules B M) (ms : List M) (b : B) (x : M) :
    x ∈ sortMoves R ms b ↔ x ∈ ms := mem_stableSort _ ms x

/-! ## Quiescence search (chooser.rs lines 172-217).

qsearch recurses only through non-quiet moves; a non-quiet move has an
occupied destination (an empty destination gives capture value 0, strictly
below the mover piece value), so the piece count strictly decreases and the
recursion is well-founded with no depth cap.  These two lemmas carry that
argument. -/

lemma piece_values_pos : ∀ p : Fin 6, 0 < PIECE_VALUES p := by decide

lemma nonquiet_dest_occupied {B M : Type} (R : Rules B M) (b : B) (m : M)
    (hq : isQuiet R m b = false) : (R.pieceOn b (R.moveDest m)).isSome = true := by
  by_contra hn
  have hnone : R.pieceOn b (R.moveDest m) = none := by
    cases h : R.pieceOn b (R.moveDest m) with
    | none => rfl
    | some p => rw [h] at hn; simp at hn
  have hcap : getCaptureValue R b m = 0 := by
    simp [getCaptureValue, getCapture, hnone]
  have hrel : getRelativeCaptureValue R b m < 0 := by
    rw [getRelativeCaptureValue, hcap]
    have := piece_values_pos (getPiece R b m)
    omega
  rw [isQuiet, decide_eq_false_iff_not] at hq
  exact hq hrel

lemma nonquiet_shrinks {B M : Type} (R : Rules B M) (b : B) (m : M)
    (hm : m ∈ R.legalMoves b) (hq : isQuiet R m b = false) :
    R.pieceCount (R.makeMove b m) < R.pieceCount b :=
  R.captureShrinks b m hm (nonquiet_dest_occupied R b m hq)

/-- The side-to-move-perspective evaluation used in the Stalemate and stand-pat
branches of chooser.rs (e.g. lines 175-179): eval negated for Black to move. -/
def sideEval {B M : Type} (R : Rules B M) (b : B) : Int :=
  if R.sideToMove b = .white then R.evalFn b else -(R.evalFn b)

/-- The biased draw score of the Stalemate branches of negamax and qsearch
(chooser.rs lines 123-137 and 174-186). -/
def drawScore {B M : Type} (R : Rules B M) (b : B) : Int :=
  if sideEval R b < -(PIECE_VALUES 2) then MATE_SCORE / 2 else -(MATE_SCORE / 2)

mutual
/-- qsearch (chooser.rs lines 172-217). -/
def qsearch {B M : Type} (R : Rules B M) (h : HB B) (alpha beta : Int) : Int :=
  match statusHB R h with
  | .Checkmate => -MATE_SCORE
  | .Stalemate => drawScore R h.board
  | .Ongoing =>
    let standPat := sideEval R h.board
    if beta ≤ standPat then beta
    else
      let alpha1 := if alpha < standPat then standPat else alpha
      qsearchMoves R h
        (sortMoves R ((R.legalMoves h.board).filter (fun m => ! isQuiet R m h.board)) h.board)
        (fun m hmem => by
          rw [mem_sortMoves, List.mem_filter] at hmem
          exact ⟨hmem.1, by simpa using hmem.2⟩)
        alpha1 beta
termination_by (R.pieceCount h.board, 1, 0)
decreasing_by
  simp_wf
  apply Prod.Lex.right
  exact Prod.Lex.left _ _ (by omega)
/-- The for loop of qsearch over the non-quiet moves.  The proposition `hms`
records that every listed move is a legal non-quiet move of the current
position; it is what makes the recursion well-founded. -/
def qsearchMoves {B M : Type} (R : Rules B M) (h : HB B) (ms : List M)
    (hms : ∀ m ∈ ms, m ∈ R.legalMoves h.board ∧ isQuiet R m h.board = false)
    (alpha beta : Int) : Int :=
  match ms with
  | [] => alpha
  | m :: rest =>
    let value := - qsearch R (makeMoveHB R h m) (-beta) (-alpha)
    if beta ≤ value then beta
    else qsearchMoves R h rest (fun x hx => hms x (List.mem_cons_of_mem m hx))
      (if alpha < value then value else alpha) beta
termination_by (R.pieceCount h.board, 0, ms.length)
decreasing_by
  · simp_wf
    exact Prod.Lex.left _ _
      (nonquiet_shrinks R h.board m (hms m (List.mem_cons_self m rest)).1
        (hms m (List.mem_cons_self m rest)).2)
  · simp_wf
    apply Prod.Lex.right
    apply Prod.Lex.right
    simp
end

/-! ## negamax (chooser.rs lines 104-170).

The clock is the oracle `c`: the k-th elapsed-time read returns `c k`, and the
read counter is threaded through the recursion; negamax reads the clock once
per call of positive depth (line 118) and never at depth 0.  The node counter
feeds only the printed info line and is not modelled. -/

mutual
/-- negamax (chooser.rs lines 104-170): returns ((score?, best reply?), next
read counter); score? = none is the out-of-time abort sentinel. -/
def negamax {B M : Type} (R : Rules B M) (c : Nat → Nat) (tc : TimeControl)
    (h : HB B) (depth : Nat) (alpha beta : Int) (k : Nat) :
    (Option Int × Option M) × Nat :=
  match depth with
  | 0 => ((some (qsearch R h alpha beta), none), k)
  | d + 1 =>
    -- the source claims reached_depth 0 because depth stopping only happens at the root
    if tc.shouldStop k (c k) 0 then ((none, none), k + 1)
    else
      match statusHB R h with
      | .Checkmate => ((some (-MATE_SCORE), none), k + 1)
      | .Stalemate => ((some (drawScore R h.board), none), k + 1)
      | .Ongoing =>
        let moves0 := R.legalMoves h.board
        let moves := if d + 1 ≠ 1 then sortMoves R moves0 h.board else moves0
        negamaxMoves R c tc h d moves alpha beta none (k + 1)
termination_by (depth, 1, 0)
decreasing_by
  simp_wf
  apply Prod.Lex.right
  exact Prod.Lex.left _ _ (by omega)
/-- The for loop of negamax over the child moves; `d` is the depth of the
child calls (depth - 1 in the source). -/
def negamaxMoves {B M : Type} (R : Rules B M) (c : Nat → Nat) (tc : TimeControl)
    (h : HB B) (d : Nat) (ms : List M) (alpha beta : Int) (response : Option M)
    (k : Nat) : (Option Int × Option M) × Nat :=
  match ms with
  | [] => ((some alpha, response), k)
  | m :: rest =>
    let r1 := negamax R c tc (makeMoveHB R h m) d (-beta) (-alpha) k
    match r1.1.1 with
    | none => ((none, none), r1.2)
    | some v0 =>
      let value := -v0
      if beta ≤ value then ((some beta, none), r1.2)
      else if alpha < value then
        negamaxMoves R c tc h d rest value beta (some m) r1.2
      else
        negamaxMoves R c tc h d rest alpha beta response r1.2
termination_by (d + 1, 0, ms.length)
decreasing_by
  · simp_wf
    exact Prod.Lex.left _ _ (by omega)
  · simp_wf
    apply Prod.Lex.right
    apply Prod.Lex.right
    simp
  · simp_wf
    apply Prod.Lex.right
    apply Prod.Lex.right
    simp
end

/-! ## The iterative-deepening root driver (chooser.rs best_move, lines 22-101). -/

/-- ChooserResult (chooser.rs lines 13-19). -/
structure ChooserResult (M : Type) where
  best_move : M
  response : Option M
  deep_eval : Int
  reached_depth : Nat
  millis : Nat
deriving DecidableEq, Repr

/-- The two ways a run of the embedded driver can fail to produce the value
the source would: the source unwraps curr_best_move and curr_response when
printing the info line (a panic when either is None), and the embedding
bounds the unbounded deepening loop by fuel. -/
inductive SearchPanic where
  | unwrapNone
  | outOfFuel
deriving DecidableEq, Repr

/-- How one iteration of the inner for loop over the root moves ends. -/
inductive RootOutcome (M : Type) where
  | aborted (best : Option M) (resp : Option M) (bestAlpha : Int)
  | mate (best : Option M) (resp : Option M) (alpha : Int)
  | completed (alpha : Int) (currBest : Option M) (currResp : Option M) (currIdx : Nat)
deriving DecidableEq, Repr

/-- The inner for loop of best_move (chooser.rs lines 43-76), processing the
root candidates at one depth.  On abort (the let-else at lines 54-62) the
source commits the in-progress best exactly when alpha improved on the
committed best_alpha and curr_best_move differs from the committed best_move,
and then breaks the outer loop; the committed reply is response_opt, the
reply component of the aborted negamax call. -/
def rootMoves {B M : Type} [DecidableEq M] (R : Rules B M) (c : Nat → Nat)
    (tc : TimeControl) (hb : HB B) (depth : Nat) (ms : List M) (i : Nat)
    (alpha : Int) (currBest currResp : Option M) (currIdx : Nat)
    (bestMv resp : Option M) (bestAlpha : Int) (k : Nat) : RootOutcome M × Nat :=
  match ms with
  | [] => (.completed alpha currBest currResp currIdx, k)
  | m :: rest =>
    let r1 := negamax R c tc (makeMoveHB R hb m) depth (-INF) (-alpha) k
    match r1.1.1 with
    | none =>
      if bestAlpha < alpha ∧ bestMv ≠ currBest then
        (.aborted currBest r1.1.2 alpha, r1.2)
      else
        (.aborted bestMv resp bestAlpha, r1.2)
    | some v0 =>
      let currMoveAlpha := -v0
      if alpha < currMoveAlpha then
        if MATE_SCORE ≤ currMoveAlpha then
          (.mate (some m) r1.1.2 currMoveAlpha, r1.2)
        else
          rootMoves R c tc hb depth rest (i + 1) currMoveAlpha (some m) r1.1.2 i
            bestMv resp bestAlpha r1.2
      else
        if MATE_SCORE ≤ alpha then
          (.mate currBest r1.1.2 alpha, r1.2)
        else
          rootMoves R c tc hb depth rest (i + 1) alpha currBest currResp currIdx
            bestMv resp bestAlpha r1.2

/-- Vec::swap(0, i) on the candidate list (chooser.rs line 90); the source
index is always in range when it is used. -/
def swapTop {M : Type} (l : List M) (i : Nat) : List M :=
  match l with
  | [] => []
  | x :: _ =>
    if i = 0 then l
    else (l.set 0 (l.getD i x)).set i x

/-- The outer deepening loop of best_move (chooser.rs lines 37-98) plus the
final result construction (lines 99-101).  `depth` is current_depth, `fuel`
bounds the number of iterations (the source loop is unbounded; every theorem
about a finished run is independent of any remaining fuel). -/
def bestMoveGo {B M : Type} [DecidableEq M] (R : Rules B M) (c : Nat → Nat)
    (tc : TimeControl) (hb : HB B) (fuel : Nat) (candidates : List M)
    (bestMv resp : Option M) (bestAlpha : Int) (depth : Nat) (k : Nat) :
    Except SearchPanic (Option (ChooserResult M)) :=
  match fuel with
  | 0 => .error .outOfFuel
  | fuel + 1 =>
    let r := rootMoves R c tc hb depth candidates 0 (-INF) none none 0 bestMv resp bestAlpha k
    match r.1 with
    | .aborted b rp a =>
      .ok (b.map fun m => ⟨m, rp, a, depth - 1, c r.2⟩)
    | .mate b rp a =>
      .ok (b.map fun m => ⟨m, rp, a, depth - 1, c r.2⟩)
    | .completed alpha cb cr ci =>
      if alpha ≤ -MATE_SCORE then
        .ok (bestMv.map fun m => ⟨m, resp, bestAlpha, depth - 1, c r.2⟩)
      else
        -- info line (chooser.rs lines 82-89): time is read once, then
        -- curr_best_move and curr_response are unwrapped for printing
        let time := c r.2
        match cb, cr with
        | some cbm, some crm =>
          let candidates1 := swapTop candidates ci
          if tc.shouldStop r.2 time depth then
            .ok (some ⟨cbm, some crm, alpha, depth, c (r.2 + 1)⟩)
          else
            bestMoveGo R c tc hb fuel candidates1 (some cbm) (some crm) alpha
              (depth + 1) (r.2 + 1)
        | _, _ => .error .unwrapNone

/-- best_move (chooser.rs lines 22-101): collect and sort the root moves, then
run the deepening loop from depth 1. -/
def bestMove {B M : Type} [DecidableEq M] (R : Rules B M) (c : Nat → Nat)
    (tc : TimeControl) (hb : HB B) (fuel : Nat) :
    Except SearchPanic (Option (ChooserResult M)) :=
  bestMoveGo R c tc hb fuel (sortMoves R (R.legalMoves hb.board) hb.board)
    none none (-INF) 1 0

/-! ## Claim C1: HistoryBoard::status -/

/-- C1: status() is Stalemate whenever the stored repetition count of the
current position hash is at least 3, and otherwise is exactly the underlying
rules-library status. -/
theorem C1_status_threefold {B M : Type} (R : Rules B M) (h : HB B) :
    (3 ≤ h.history (R.getHash h.board) → statusHB R h = .Stalemate) ∧
    (h.history (R.getHash h.board) < 3 → statusHB R h = R.statusOf h.board) := by
  refine ⟨fun hc => ?_, fun hc => ?_⟩
  · simp [statusHB, hc]
  · rw [statusHB, if_neg (by omega)]

/-- A minimal rules instance (no legal moves anywhere, board 1 is a
rules-level stalemate) used to instantiate theorems with hypotheses. -/
def TrivRules : Rules Nat Nat :=
  { legalMoves := fun _ => []
    makeMove := fun b _ => b
    statusOf := fun b => if b = 1 then .Stalemate else .Ongoing
    getHash := fun b => b
    sideToMove := fun _ => .white
    evalFn := fun _ => 0
    pieceOn := fun _ _ => none
    pieceCount := fun _ => 0
    moveSrc := fun _ => 0
    moveDest := fun _ => 0
    captureShrinks := by intro b m hm hocc; simp at hm }

/-- A history board whose current position is recorded three times. -/
def hbRep : HB Nat := { board := 0, history := fun _ => 3 }

/-- A history board on the rules-level stalemate position, seen once. -/
def hbSt : HB Nat := { board := 1, history := fun _ => 1 }

/-- Witness for C1: a threefold-repeated position reports Stalemate, and a
once-seen position reports the underlying status. -/
theorem C1_status_threefold_witness :
    statusHB TrivRules hbRep = BoardStatus.Stalemate ∧
    statusHB TrivRules hbSt = TrivRules.statusOf hbSt.board :=
  ⟨(C1_status_threefold TrivRules hbRep).1 (by decide),
   (C1_status_threefold TrivRules hbSt).2 (by decide)⟩

/-! ## Claim C2: the biased draw score -/

/-- C2: on a board whose HistoryBoard status is Stalemate (genuine stalemate
or threefold repetition), qsearch, and negamax at positive depth when the
time control does not stop, both return MATE_SCORE/2 when the side to move is
behind by more than a bishop on the evaluator, and -MATE_SCORE/2 otherwise. -/
theorem C2_draw_score {B M : Type} (R : Rules B M) (c : Nat → Nat)
    (tc : TimeControl) (h : HB B) (alpha beta : Int) (depth k : Nat)
    (hst : statusHB R h = .Stalemate) (hd : 1 ≤ depth)
    (hstop : tc.shouldStop k (c k) 0 = false) :
    qsearch R h alpha beta
      = (if sideEval R h.board < -(PIECE_VALUES 2) then MATE_SCORE / 2
         else -(MATE_SCORE / 2)) ∧
    negamax R c tc h depth alpha beta k
      = ((some (if sideEval R h.board < -(PIECE_VALUES 2) then MATE_SCORE / 2
          else -(MATE_SCORE / 2)), none), k + 1) := by
  obtain ⟨d, rfl⟩ : ∃ d, depth = d + 1 := ⟨depth - 1, by omega⟩
  constructor
  · rw [qsearch, hst]
    simp [drawScore]
  · rw [negamax, hstop]
    simp only [Bool.false_eq_true, if_false, hst, drawScore]

/-- Witness for C2: a concrete stalemate history board with evaluation 0 gets
the draw score -MATE_SCORE/2 from both qsearch and negamax. -/
theorem C2_draw_score_witness :
    qsearch TrivRules hbSt 2 3 = -(MATE_SCORE / 2) ∧
    negamax TrivRules (fun _ => 0) ⟨none, .Infinite⟩ hbSt 1 2 3 0
      = ((some (-(MATE_SCORE / 2)), none), 1) := by
  have h := C2_draw_score TrivRules (fun _ => 0) ⟨none, .Infinite⟩ hbSt 2 3 1 0
    (by decide) (by decide) (by decide)
  simpa [sideEval, TrivRules, hbSt, PIECE_VALUES, BISHOP_VALUE] using h

/-! ## Claim C9: a root with no legal moves yields nothing -/

/-- C9: with no legal root move, best_move returns None for every time
control and clock: the inner loop runs zero iterations, alpha stays -INF,
the we-lose branch breaks the outer loop before the info line, and no move
was ever committed.  The Except layer shows no unwrap panic occurs either. -/
theorem C9_no_moves {B M : Type} [DecidableEq M] (R : Rules B M) (c : Nat → Nat)
    (tc : TimeControl) (h : HB B) (fuel : Nat) (hf : 1 ≤ fuel)
    (hmv : R.legalMoves h.board = []) :
    bestMove R c tc h fuel = .ok none := by
  obtain ⟨f, rfl⟩ : ∃ f, fuel = f + 1 := ⟨fuel - 1, by omega⟩
  rw [bestMove, hmv]
  rw [show sortMoves R ([] : List M) h.board = [] from rfl]
  rw [bestMoveGo]
  simp [rootMoves, INF, MATE_SCORE]

/-- Witness for C9: the empty-move rules instance yields no result at any
fuel at least 1. -/
theorem C9_no_moves_witness :
    bestMove TrivRules (fun _ => 0) ⟨none, .Infinite⟩ hbSt 5 = .ok none :=
  C9_no_moves TrivRules (fun _ => 0) ⟨none, .Infinite⟩ hbSt 5 (by decide) (by decide)

/-! ## Claim C10: qsearch termination through strictly shrinking captures -/

/-- C10: a non-quiet move always has an occupied destination square (a move
to an empty destination has capture value 0, strictly below the mover piece
value, hence is quiet), so by the rules-library capture guarantee every
recursive qsearch call strictly decreases the board piece count; this is the
well-founded measure by which qsearch and qsearchMoves are defined above with
no explicit depth cap. -/
theorem C10_qsearch_measure {B M : Type} (R : Rules B M) (b : B) (m : M)
    (hm : m ∈ R.legalMoves b) (hq : isQuiet R m b = false) :
    (R.pieceOn b (R.moveDest m)).isSome = true ∧
    R.pieceCount (R.makeMove b m) < R.pieceCount b := by
  have hocc := nonquiet_dest_occupied R b m hq
  exact ⟨hocc, R.captureShrinks b m hm hocc⟩

/-- A rules instance with one capture: on board 0 the single legal move 5
takes a queen on square 1 with a pawn from square 0, and the piece count
drops from 2 to 1. -/
def CaptRules : Rules Nat Nat :=
  { legalMoves := fun b => if b = 0 then [5] else []
    makeMove := fun b _ => b + 1
    statusOf := fun _ => .Ongoing
    getHash := fun b => b
    sideToMove := fun _ => .white
    evalFn := fun _ => 0
    pieceOn := fun b sq =>
      if b = 0 ∧ sq.val = 1 then some 4 else if b = 0 ∧ sq.val = 0 then some 0 else none
    pieceCount := fun b => 2 - b
    moveSrc := fun _ => 0
    moveDest := fun _ => 1
    captureShrinks := by
      intro b m hm hocc
      by_cases hb : b = 0
      · subst hb; simp
      · simp [hb] at hm }

/-- Witness for C10: the concrete capture has an occupied destination and
shrinks the piece count. -/
theorem C10_qsearch_measure_witness :
    (CaptRules.pieceOn 0 (CaptRules.moveDest 5)).isSome = true ∧
    CaptRules.pieceCount (CaptRules.makeMove 0 5) < CaptRules.pieceCount 0 :=
  C10_qsearch_measure CaptRules 0 5 (by decide) (by decide)

/-! ## Claim C4: the abort branch of the root driver -/

lemma negamaxMoves_abort_response {B M : Type} (R : Rules B M) (c : Nat → Nat)
    (tc : TimeControl) (d : Nat)
    (ih : ∀ (h : HB B) (a b : Int) (k : Nat),
      (negamax R c tc h d a b k).1.1 = none → (negamax R c tc h d a b k).1.2 = none) :
    ∀ (ms : List M) (h : HB B) (a b : Int) (resp : Option M) (k : Nat),
      (negamaxMoves R c tc h d ms a b resp k).1.1 = none →
      (negamaxMoves R c tc h d ms a b resp k).1.2 = none := by
  intro ms
  induction ms with
  | nil =>
    intro h a b resp k hab
    rw [negamaxMoves] at hab
    simp at hab
  | cons m rest ihm =>
    intro h a b resp k hab
    rw [negamaxMoves] at hab ⊢
    cases hr : (negamax R c tc (makeMoveHB R h m) d (-b) (-a) k).1.1 with
    | none => simp [hr]
    | some v0 =>
      simp only [hr] at hab ⊢
      by_cases hbv : b ≤ -v0
      · rw [if_pos hbv] at hab
        simp at hab
      · rw [if_neg hbv] at hab ⊢
        by_cases hav : a < -v0
        · rw [if_pos hav] at hab ⊢
          exact ihm _ _ _ _ _ hab
        · rw [if_neg hav] at hab ⊢
          exact ihm _ _ _ _ _ hab

/-- Every abort return of negamax carries no reply: the sentinel is
(None, None). -/
lemma negamax_abort_response {B M : Type} (R : Rules B M) (c : Nat → Nat)
    (tc : TimeControl) :
    ∀ (depth : Nat) (h : HB B) (a b : Int) (k : Nat),
      (negamax R c tc h depth a b k).1.1 = none →
      (negamax R c tc h depth a b k).1.2 = none := by
  intro depth
  induction depth with
  | zero =>
    intro h a b k hab
    rw [negamax] at hab
    simp at hab
  | succ d ih =>
    intro h a b k hab
    rw [negamax] at hab ⊢
    by_cases hstp : tc.shouldStop k (c k) 0 = true
    · simp [hstp]
    · simp only [hstp, Bool.false_eq_true, if_false] at hab ⊢
      cases hs : statusHB R h with
      | Checkmate => simp [hs] at hab
      | Stalemate => simp [hs] at hab
      | Ongoing =>
        simp only [hs] at hab ⊢
        exact negamaxMoves_abort_response R c tc d ih _ _ _ _ _ _ hab

/-- C4 amended: when the negamax call for a root move returns the abort
sentinel, the inner loop ends with an aborted outcome whose committed state
updates best_move to the current best, best_score to the current alpha, and
the reply to None (the reply slot of the aborted call, which is always None,
not the current iteration reply) exactly when alpha improved on the committed
best_score and the current best differs from the committed best move, and is
the unchanged previous state otherwise; and an aborted outcome makes the
driver return immediately, exiting the deepening loop. -/
theorem C4_abort_commit {B M : Type} [DecidableEq M] (R : Rules B M)
    (c : Nat → Nat) (tc : TimeControl) (hb : HB B) (depth : Nat) (m : M)
    (rest : List M) (i : Nat) (alpha : Int) (currBest currResp : Option M)
    (currIdx : Nat) (bestMv resp : Option M) (bestAlpha : Int) (k : Nat)
    (fuel : Nat) (cands : List M)
    (habort : (negamax R c tc (makeMoveHB R hb m) depth (-INF) (-alpha) k).1.1 = none) :
    (rootMoves R c tc hb depth (m :: rest) i alpha currBest currResp currIdx
        bestMv resp bestAlpha k
      = ((if bestAlpha < alpha ∧ bestMv ≠ currBest
          then RootOutcome.aborted currBest none alpha
          else RootOutcome.aborted bestMv resp bestAlpha),
         (negamax R c tc (makeMoveHB R hb m) depth (-INF) (-alpha) k).2)) ∧
    (∀ (b rp : Option M) (a : Int) (k0 k1 : Nat),
      rootMoves R c tc hb depth cands 0 (-INF) none none 0 bestMv resp bestAlpha k0
        = (.aborted b rp a, k1) →
      bestMoveGo R c tc hb (fuel + 1) cands bestMv resp bestAlpha depth k0
        = .ok (b.map fun mm => ⟨mm, rp, a, depth - 1, c k1⟩)) := by
  constructor
  · have hrp := negamax_abort_response R c tc depth (makeMoveHB R hb m) (-INF) (-alpha) k habort
    rw [rootMoves]
    simp only [habort, hrp]
    by_cases hcond : bestAlpha < alpha ∧ bestMv ≠ currBest
    · rw [if_pos hcond, if_pos hcond]
    · rw [if_neg hcond, if_neg hcond]
  · intro b rp a k0 k1 hroot
    rw [bestMoveGo]
    simp only [hroot]

/-- A rules instance for exercising the abort branch: from the root 0 the
moves 10 and 11 are legal (10 sorts first via its destination square score);
10 leads to board 1 with the single reply 20 to board 2, a rules-level
stalemate; 11 leads to board 3 (never inspected: its negamax call aborts). -/
def AbortRules : Rules Nat Nat :=
  { legalMoves := fun b => if b = 0 then [10, 11] else if b = 1 then [20] else []
    makeMove := fun b m =>
      if b = 0 ∧ m = 10 then 1 else if b = 0 ∧ m = 11 then 3
      else if b = 1 ∧ m = 20 then 2 else b
    statusOf := fun b => if b = 2 then .Stalemate else .Ongoing
    getHash := fun b => b
    sideToMove := fun b => if b = 1 then .black else .white
    evalFn := fun _ => 0
    pieceOn := fun _ _ => none
    pieceCount := fun _ => 0
    moveSrc := fun _ => 0
    moveDest := fun m => if m = 10 then 28 else 0
    captureShrinks := by intro b m hm hocc; simp at hocc }

/-- Clock for the abort run: the first elapsed read is 0 ms, all later reads
9 ms, past the 5 ms budget. -/
def abortClock : Nat → Nat := fun k => if k = 0 then 0 else 9

/-- A 5 ms move-time control with no stop flag. -/
def abortTC : TimeControl := ⟨none, .MoveTime 5⟩

/-- The abort-run root history board. -/
def hbA : HB Nat := newHB AbortRules 0

/-- C4 counterexample: in the abort run, the completed first root move had
reply 20 recorded as the current iteration best reply (first conjunct), the
second root move aborts with alpha improved and the best move changed, so the
driver commits the partial result, yet the committed reply is None, not the
current iteration reply 20 (second conjunct): the claim that the reply
becomes current_reply fails on this input. -/
theorem C4_counterexample :
    (negamax AbortRules abortClock abortTC (makeMoveHB AbortRules hbA 10) 1
      (-INF) INF 0).1.2 = some 20 ∧
    bestMove AbortRules abortClock abortTC hbA 3
      = .ok (some ⟨10, none, -15000, 0, 9⟩) := by
  constructor <;>
    simp [bestMove, bestMoveGo, rootMoves, negamax, negamaxMoves.eq_def, qsearch,
      qsearchMoves.eq_def, AbortRules, abortClock, abortTC, hbA, newHB, makeMoveHB,
      statusHB, drawScore, sideEval, sortMoves, stableSort, insertSorted, getMovePrio,
      getPiece, getCapture, getCaptureValue, isQuiet, TimeControl.shouldStop, INF,
      MATE_SCORE, PIECE_VALUES, BISHOP_VALUE, swapTop]

/-- Witness for the amended C4: the abort step of the concrete run, through
the theorem: the commit condition holds (alpha -15000 improves on -INF and
current best 10 differs from the uncommitted best), so the outcome commits
best 10, reply None, score -15000, and the driver returns that result at
once. -/
theorem C4_abort_commit_witness :
    rootMoves AbortRules abortClock abortTC hbA 1 [11] 1 (-15000) (some 10)
        (some 20) 0 none none (-INF) 1
      = (RootOutcome.aborted (some 10) none (-15000), 2) ∧
    bestMoveGo AbortRules abortClock abortTC hbA 3 [10, 11] none none (-INF) 1 0
      = .ok (some ⟨10, none, -15000, 0, 9⟩) := by
  have habort : (negamax AbortRules abortClock abortTC (makeMoveHB AbortRules hbA 11) 1
      (-INF) (-(-15000 : Int)) 1).1.1 = none := by
    simp [negamax, makeMoveHB, hbA, newHB, AbortRules, abortClock, abortTC,
      TimeControl.shouldStop]
  have h := C4_abort_commit AbortRules abortClock abortTC hbA 1 11 [] 1 (-15000)
    (some 10) (some 20) 0 none none (-INF) 1 2 [10, 11] habort
  constructor
  · have h1 := h.1
    rw [if_pos ⟨by norm_num [INF, MATE_SCORE], by simp⟩] at h1
    rw [h1]
    have hk : (negamax AbortRules abortClock abortTC (makeMoveHB AbortRules hbA 11) 1
        (-INF) (-(-15000 : Int)) 1).2 = 2 := by
      simp [negamax, makeMoveHB, hbA, newHB, AbortRules, abortClock, abortTC,
        TimeControl.shouldStop]
    rw [hk]
  · have hroot : rootMoves AbortRules abortClock abortTC hbA 1 [10, 11] 0 (-INF)
        none none 0 none none (-INF) 0
        = (RootOutcome.aborted (some 10) none (-15000), 2) := by
      simp [rootMoves, negamax, negamaxMoves.eq_def, qsearch, qsearchMoves.eq_def,
        AbortRules, abortClock, abortTC, hbA, newHB, makeMoveHB, statusHB, drawScore,
        sideEval, sortMoves, stableSort, insertSorted, getMovePrio, getPiece,
        getCapture, getCaptureValue, isQuiet, TimeControl.shouldStop, INF, MATE_SCORE,
        PIECE_VALUES, BISHOP_VALUE]
    have h2 := h.2 (some 10) none (-15000) 0 2 hroot
    simpa [abortClock] using h2

/-! ## Claim C3: there is no single-legal-move fast path in this best_move -/

/-- Like the abort world but with a single legal root move 10: board 1 after
it, reply 20 to board 2, a rules-level stalemate. -/
def SingleRules : Rules Nat Nat :=
  { legalMoves := fun b => if b = 0 then [10] else if b = 1 then [20] else []
    makeMove := fun b m =>
      if b = 0 ∧ m = 10 then 1 else if b = 1 ∧ m = 20 then 2 else b
    statusOf := fun b => if b = 2 then .Stalemate else .Ongoing
    getHash := fun b => b
    sideToMove := fun b => if b = 1 then .black else .white
    evalFn := fun _ => 0
    pieceOn := fun _ _ => none
    pieceCount := fun _ => 0
    moveSrc := fun _ => 0
    moveDest := fun m => if m = 10 then 28 else 0
    captureShrinks := by intro b m hm hocc; simp at hocc }

/-- A depth-1 time control with no stop flag. -/
def depthOneTC : TimeControl := ⟨none, .Depth 1⟩

/-- The single-move root history board. -/
def hbS : HB Nat := newHB SingleRules 0

/-- C3 counterexample: the root has exactly one legal move, yet best_move runs
the full depth-1 iteration and returns score -15000 (not -1), reached_depth 1
(not 0), and elapsed 2 ms under the strictly increasing clock (not 0): the
single-move fast path does not exist in src/chessian/src/chooser.rs. -/
theorem C3_counterexample :
    SingleRules.legalMoves hbS.board = [10] ∧
    bestMove SingleRules (fun k => k) depthOneTC hbS 3
      = .ok (some ⟨10, some 20, -15000, 1, 2⟩) := by
  constructor
  · decide
  · simp [bestMove, bestMoveGo, rootMoves, negamax, negamaxMoves.eq_def, qsearch,
      qsearchMoves.eq_def, SingleRules, depthOneTC, hbS, newHB, makeMoveHB, statusHB,
      drawScore, sideEval, sortMoves, stableSort, insertSorted, getMovePrio, getPiece,
      getCapture, getCaptureValue, isQuiet, TimeControl.shouldStop, INF, MATE_SCORE,
      PIECE_VALUES, BISHOP_VALUE, swapTop]

/-- C3 amended: with exactly one legal root move, best_move does not return
early; it runs the normal depth-1 iteration, and when that iteration
completes with a non-mate score and the time control then stops, the result
is the real search result: that move, the negamax reply, the negated negamax
score, reached depth 1 and the current clock reading, not (score -1,
depth 0, 0 ms). -/
theorem C3_no_fast_path {B M : Type} [DecidableEq M] (R : Rules B M)
    (c : Nat → Nat) (tc : TimeControl) (hb : HB B) (m : M) (fuel : Nat)
    (v0 : Int) (rr : M) (k1 : Nat)
    (hsort : sortMoves R (R.legalMoves hb.board) hb.board = [m])
    (hneg : negamax R c tc (makeMoveHB R hb m) 1 (-INF) INF 0 = ((some v0, some rr), k1))
    (hlo : -MATE_SCORE < -v0) (hhi : -v0 < MATE_SCORE)
    (hstop : tc.shouldStop k1 (c k1) 1 = true) :
    bestMove R c tc hb (fuel + 1)
      = .ok (some ⟨m, some rr, -v0, 1, c (k1 + 1)⟩) := by
  have hINF : (-INF : Int) < -v0 := by
    have h2 : (-INF : Int) < -MATE_SCORE := by norm_num [INF, MATE_SCORE]
    omega
  rw [bestMove, hsort, bestMoveGo]
  rw [rootMoves]
  simp only [neg_neg, hneg, if_pos hINF]
  rw [if_neg (by omega : ¬ MATE_SCORE ≤ -v0)]
  rw [rootMoves]
  simp only []
  rw [if_neg (by omega : ¬ -v0 ≤ -MATE_SCORE)]
  simp only [swapTop, if_pos rfl, hstop, if_true]

/-- Witness for the amended C3: the concrete single-move run, through the
theorem. -/
theorem C3_no_fast_path_witness :
    bestMove SingleRules (fun k => k) depthOneTC hbS 3
      = .ok (some ⟨10, some 20, -(15000 : Int), 1, 2⟩) := by
  have hneg : negamax SingleRules (fun k => k) depthOneTC (makeMoveHB SingleRules hbS 10)
      1 (-INF) INF 0 = ((some 15000, some 20), 1) := by
    simp [negamax, negamaxMoves.eq_def, qsearch, qsearchMoves.eq_def, SingleRules,
      depthOneTC, hbS, newHB, makeMoveHB, statusHB, drawScore, sideEval, sortMoves,
      stableSort, insertSorted, getMovePrio, getPiece, getCapture, getCaptureValue,
      isQuiet, TimeControl.shouldStop, INF, MATE_SCORE, PIECE_VALUES, BISHOP_VALUE]
  exact C3_no_fast_path SingleRules (fun k => k) depthOneTC hbS 10 2 15000 20 1
    (by decide) hneg (by norm_num [MATE_SCORE]) (by norm_num [MATE_SCORE])
    (by decide)

/-! ## Claim C8: depth-1 mate detection -/

/-- The depth-1 root loop finds a mating move: if every earlier candidate
completes one poll later with a value below MATE_SCORE, then at the first
candidate whose child is checkmate the root sees -(-MATE_SCORE), commits it
and exits with the mate outcome. -/
lemma rootMoves_mate {B M : Type} [DecidableEq M] (R : Rules B M) (c : Nat → Nat)
    (tc : TimeControl) (hb : HB B) (mk : M) (post : List M)
    (hnostop : ∀ kk, tc.shouldStop kk (c kk) 0 = false)
    (hmate : statusHB R (makeMoveHB R hb mk) = .Checkmate) :
    ∀ (pre : List M) (i : Nat) (alpha : Int) (cb cr : Option M) (ci : Nat)
      (bmv rsp : Option M) (ba : Int) (k : Nat),
      alpha < MATE_SCORE →
      (∀ m ∈ pre, ∀ (A : Int) (kk : Nat), ∃ w rr,
        negamax R c tc (makeMoveHB R hb m) 1 (-INF) A kk = ((some w, rr), kk + 1) ∧
        -w < MATE_SCORE) →
      rootMoves R c tc hb 1 (pre ++ mk :: post) i alpha cb cr ci bmv rsp ba k
        = (.mate (some mk) none MATE_SCORE, k + (pre.length + 1)) := by
  intro pre
  induction pre with
  | nil =>
    intro i alpha cb cr ci bmv rsp ba k halpha hpre
    rw [List.nil_append, rootMoves]
    have hneg : negamax R c tc (makeMoveHB R hb mk) 1 (-INF) (-alpha) k
        = ((some (-MATE_SCORE), none), k + 1) := by
      rw [negamax, hnostop k]
      simp only [Bool.false_eq_true, if_false, hmate]
    simp only [hneg, neg_neg]
    rw [if_pos halpha, if_pos (le_refl MATE_SCORE)]
    simp
  | cons m pre ih =>
    intro i alpha cb cr ci bmv rsp ba k halpha hpre
    rw [List.cons_append, rootMoves]
    obtain ⟨w, rr, hneg, hw⟩ := hpre m (List.mem_cons_self m pre) (-alpha) k
    simp only [hneg]
    by_cases hav : alpha < -w
    · rw [if_pos hav, if_neg (by omega : ¬ MATE_SCORE ≤ -w)]
      rw [ih (i + 1) (-w) (some m) rr i bmv rsp ba (k + 1) hw
        (fun x hx => hpre x (List.mem_cons_of_mem m hx))]
      simp only [List.length_cons]
      congr 1
      omega
    · rw [if_neg hav, if_neg (by omega : ¬ MATE_SCORE ≤ alpha)]
      rw [ih (i + 1) alpha cb cr ci bmv rsp ba (k + 1) halpha
        (fun x hx => hpre x (List.mem_cons_of_mem m hx))]
      simp only [List.length_cons]
      congr 1
      omega

/-- C8 amended: if the sorted root moves split as pre ++ mk :: post with the
child of mk checkmate, the interior polls never stopping, and every candidate
in pre scoring strictly below MATE_SCORE at depth 1, then the depth-1 search
commits mk with score exactly MATE_SCORE and terminates (reporting
reached_depth 0, since the outer loop breaks before incrementing). -/
theorem C8_mate_in_one {B M : Type} [DecidableEq M] (R : Rules B M)
    (c : Nat → Nat) (tc : TimeControl) (hb : HB B) (mk : M)
    (pre post : List M) (fuel : Nat)
    (hsort : sortMoves R (R.legalMoves hb.board) hb.board = pre ++ mk :: post)
    (hnostop : ∀ kk, tc.shouldStop kk (c kk) 0 = false)
    (hmate : statusHB R (makeMoveHB R hb mk) = .Checkmate)
    (hpre : ∀ m ∈ pre, ∀ (A : Int) (kk : Nat), ∃ w rr,
      negamax R c tc (makeMoveHB R hb m) 1 (-INF) A kk = ((some w, rr), kk + 1) ∧
      -w < MATE_SCORE) :
    bestMove R c tc hb (fuel + 1)
      = .ok (some ⟨mk, none, MATE_SCORE, 0, c (pre.length + 1)⟩) := by
  rw [bestMove, hsort, bestMoveGo]
  rw [rootMoves_mate R c tc hb mk post hnostop hmate pre 0 (-INF) none none 0
    none none (-INF) 0 (by norm_num [INF, MATE_SCORE]) hpre]
  simp

/-- A mate-in-one world in which another move is searched first and reaches
MATE_SCORE through quiescence: from root 0, move 10 (sorted first) leads to
board 1 whose only reply 20 reaches board 2, where quiescence finds the
winning capture 30 (a pawn takes a queen) into board 5, a checkmate; move 11
mates at once (board 4 is checkmate). -/
def MateRules : Rules Nat Nat :=
  { legalMoves := fun b =>
      if b = 0 then [10, 11] else if b = 1 then [20] else if b = 2 then [30] else []
    makeMove := fun b m =>
      if b = 0 ∧ m = 10 then 1 else if b = 0 ∧ m = 11 then 4
      else if b = 1 ∧ m = 20 then 2 else if b = 2 ∧ m = 30 then 5 else b
    statusOf := fun b => if b = 4 ∨ b = 5 then .Checkmate else .Ongoing
    getHash := fun b => b
    sideToMove := fun b => if b = 1 ∨ b = 5 then .black else .white
    evalFn := fun _ => 0
    pieceOn := fun b sq =>
      if b = 2 ∧ sq.val = 1 then some 4 else if b = 2 ∧ sq.val = 0 then some 0 else none
    pieceCount := fun b => if b = 2 then 3 else if b = 5 then 2 else 1
    moveSrc := fun _ => 0
    moveDest := fun m => if m = 10 then 28 else if m = 30 then 1 else 0
    captureShrinks := by
      intro b m hm hocc
      by_cases hb : b = 2
      · subst hb
        simp at hm
        subst hm
        simp
      · simp [hb] at hocc }

/-- The mate-world root history board. -/
def hbM : HB Nat := newHB MateRules 0

/-- The identity clock: the k-th elapsed read returns k ms. -/
def idClock : Nat → Nat := fun k => k

/-- C8 counterexample: the side to move has a mate in one (move 11 reaches a
checkmate child), but the depth-1 search returns move 10, whose child is not
checkmate, because move 10 is searched first and already scores MATE_SCORE
(its quiescence line ends in a forced capture mate); so the search does not
return a mating move. -/
theorem C8_counterexample :
    statusHB MateRules (makeMoveHB MateRules hbM 11) = .Checkmate ∧
    bestMove MateRules idClock depthOneTC hbM 3
      = .ok (some ⟨10, some 20, MATE_SCORE, 0, 1⟩) ∧
    statusHB MateRules (makeMoveHB MateRules hbM 10) ≠ .Checkmate := by
  refine ⟨by decide, ?_, by decide⟩
  have hq5 : ∀ (a b : Int), qsearch MateRules (makeMoveHB MateRules
      (makeMoveHB MateRules (makeMoveHB MateRules hbM 10) 20) 30) a b
      = -MATE_SCORE := by
    intro a b
    rw [qsearch]
    rw [show statusHB MateRules (makeMoveHB MateRules (makeMoveHB MateRules
      (makeMoveHB MateRules hbM 10) 20) 30) = BoardStatus.Checkmate from by decide]
  have hq2 : qsearch MateRules (makeMoveHB MateRules (makeMoveHB MateRules hbM 10) 20)
      (-INF) INF = MATE_SCORE := by
    rw [qsearch]
    norm_num [show statusHB MateRules (makeMoveHB MateRules (makeMoveHB MateRules hbM 10) 20)
        = BoardStatus.Ongoing from by decide,
      show sideEval MateRules (makeMoveHB MateRules
        (makeMoveHB MateRules hbM 10) 20).board = 0 from by decide,
      show ¬ (INF ≤ (0 : Int)) from by decide,
      show (-INF : Int) < 0 from by decide,
      show sortMoves MateRules ((MateRules.legalMoves (makeMoveHB MateRules
          (makeMoveHB MateRules hbM 10) 20).board).filter
          (fun m => ! isQuiet MateRules m (makeMoveHB MateRules
            (makeMoveHB MateRules hbM 10) 20).board))
          (makeMoveHB MateRules (makeMoveHB MateRules hbM 10) 20).board
        = [30] from by decide,
      qsearchMoves.eq_def, hq5,
      show ¬ (INF ≤ MATE_SCORE) from by decide,
      show (0 : Int) < MATE_SCORE from by decide]
  have hneg10 : negamax MateRules idClock depthOneTC (makeMoveHB MateRules hbM 10)
      1 (-INF) INF 0 = ((some (-MATE_SCORE), some 20), 1) := by
    rw [negamax]
    norm_num [show depthOneTC.shouldStop 0 (idClock 0) 0 = false from by decide,
      show statusHB MateRules (makeMoveHB MateRules hbM 10)
        = BoardStatus.Ongoing from by decide,
      show MateRules.legalMoves (makeMoveHB MateRules hbM 10).board = [20] from by decide,
      negamaxMoves.eq_def, negamax, hq2,
      show ¬ (INF ≤ -MATE_SCORE) from by decide,
      show (-INF : Int) < -MATE_SCORE from by decide]
  have hcand : sortMoves MateRules (MateRules.legalMoves hbM.board) hbM.board
      = [10, 11] := by decide
  rw [bestMove, hcand, bestMoveGo, rootMoves]
  norm_num [hneg10,
    show (-INF : Int) < MATE_SCORE from by decide,
    idClock]

/-- A minimal mate-in-one world: the single root move 11 reaches checkmate. -/
def MateWRules : Rules Nat Nat :=
  { legalMoves := fun b => if b = 0 then [11] else []
    makeMove := fun b m => if b = 0 ∧ m = 11 then 4 else b
    statusOf := fun b => if b = 4 then .Checkmate else .Ongoing
    getHash := fun b => b
    sideToMove := fun _ => .white
    evalFn := fun _ => 0
    pieceOn := fun _ _ => none
    pieceCount := fun _ => 0
    moveSrc := fun _ => 0
    moveDest := fun _ => 0
    captureShrinks := by intro b m hm hocc; simp at hocc }

/-- The minimal mate-world root history board. -/
def hbW : HB Nat := newHB MateWRules 0

/-- Witness for the amended C8: the mating move is found and committed with
score MATE_SCORE in the minimal mate world. -/
theorem C8_mate_in_one_witness :
    bestMove MateWRules (fun k => k) depthOneTC hbW 3
      = .ok (some ⟨11, none, MATE_SCORE, 0, 1⟩) := by
  have h := C8_mate_in_one MateWRules (fun k => k) depthOneTC hbW 11 [] [] 2
    (by decide)
    (by intro kk; simp [depthOneTC, TimeControl.shouldStop])
    (by decide)
    (fun m hm => absurd hm (by simp))
  simpa using h

end Chessian



